import Mathlib

/-!
Verification of the crypto-sentiment ingestion-and-aggregation pipeline
(`src/crypto_sentiment/src/sentiment_analyzer.py` and
`src/crypto_sentiment/src/data_collector.py`).

The Python code is shallowly embedded: pure computations become Lean
functions over `ℚ` and `Nat`, the cooperative request queue becomes an
explicit drain function over a queue of tasks, and fallible code returns
`Option`/`Except`.  The NaN produced by pandas `Series.std()` on a
one-element series is modelled by `Option.none`.
-/

namespace CryptoSentiment

/-! ### Python string primitives -/

/-- Count of non-overlapping occurrences of `needle`, as Python
`str.count` for a non-empty needle: scan left to right and, on a match,
advance past the matched span. -/
def countOccs (needle : List Char) : List Char → Nat
  | [] => 0
  | c :: cs =>
    if needle.isPrefixOf (c :: cs) ∧ needle ≠ []
    then 1 + countOccs needle (cs.drop (needle.length - 1))
    else countOccs needle cs
termination_by l => l.length
decreasing_by
  all_goals simp only [List.length_drop, List.length_cons]
  all_goals omega

/-- Whitespace tokenisation of Python `str.split()` with no argument:
split on whitespace and drop empty pieces. -/
def pySplitWs (s : String) : List String :=
  (s.split Char.isWhitespace).filter (· ≠ "")

/-- Line splitting of Python `analysis.split('\n')`. -/
def pyLines (s : String) : List String := s.splitOn "\n"

/-- Accumulate a digit run into a natural number. -/
def digitsToNat (ds : List Char) : Nat :=
  ds.foldl (fun acc c => 10 * acc + (c.toNat - '0'.toNat)) 0

/-- Split a leading digit run from the rest of the characters. -/
def takeDigits (cs : List Char) : List Char × List Char :=
  (cs.takeWhile Char.isDigit, cs.dropWhile Char.isDigit)

/-- Consume an optional leading sign. -/
def parseSign : List Char → Int × List Char
  | '+' :: cs => (1, cs)
  | '-' :: cs => (-1, cs)
  | cs => (1, cs)

/-- Parse the exponent suffix of a decimal literal: empty input means
exponent `0`; otherwise `e`/`E`, an optional sign and a non-empty digit
run consuming the whole rest. -/
def parseExpSuffix : List Char → Option Int
  | [] => some 0
  | 'e' :: cs =>
    let (sign, cs1) := parseSign cs
    let (ds, rest) := takeDigits cs1
    if ds = [] ∨ rest ≠ [] then none else some (sign * (digitsToNat ds : Int))
  | 'E' :: cs =>
    let (sign, cs1) := parseSign cs
    let (ds, rest) := takeDigits cs1
    if ds = [] ∨ rest ≠ [] then none else some (sign * (digitsToNat ds : Int))
  | _ => none

/-- Integer power of ten as a rational, for signed exponents. -/
def pow10 (e : Int) : ℚ :=
  if 0 ≤ e then (10 : ℚ) ^ e.toNat else 1 / (10 : ℚ) ^ (-e).toNat

/-- Exact-rational model of Python `float(tok)` on decimal literals:
`[+-]? (digits [. digits?] | . digits) ([eE] [+-]? digits)?`.  The inputs
arising in this code base are plain decimal tokens, so the special forms
(`inf`, `nan`, digit-group underscores) are out of scope and rejected. -/
def pyFloat (s : String) : Option ℚ :=
  let cs0 := s.toList
  let (sign, cs1) := parseSign cs0
  let (ip, cs2) := takeDigits cs1
  match cs2 with
  | '.' :: cs3 =>
    let (fp, rest) := takeDigits cs3
    if ip = [] ∧ fp = [] then none
    else
      match parseExpSuffix rest with
      | none => none
      | some e =>
        some ((sign : ℚ) * ((digitsToNat ip : ℚ) +
          (digitsToNat fp : ℚ) / (10 : ℚ) ^ fp.length) * pow10 e)
  | rest =>
    if ip = [] then none
    else
      match parseExpSuffix rest with
      | none => none
      | some e => some ((sign : ℚ) * (digitsToNat ip : ℚ) * pow10 e)

/-! ### Score extraction (`SentimentAnalyzer.analyze_text` and
`SentimentAnalyzer._extract_sentiment_score`) -/

/-- Index of the first occurrence of `needle` in a character list. -/
def findSub (needle : List Char) : List Char → Option Nat
  | [] => if needle = [] then some 0 else none
  | c :: cs =>
    if needle.isPrefixOf (c :: cs) then some 0
    else (findSub needle cs).map (· + 1)

/-- Containment test of Python `needle in hay` on strings. -/
def pyContains (hay needle : String) : Bool :=
  (findSub needle.toList hay.toList).isSome

/-- Marker substrings searched for by the primary parse of
`analyze_text`. -/
def scoreMarkers : List String := ["score:", "score is:", "sentiment:", "rating:"]

/-- Test `any(x in line.lower() for x in ['score:', ...])` from
`analyze_text`. -/
def lineHasMarker (line : String) : Bool :=
  scoreMarkers.any fun m => pyContains line.toLower m

/-- Primary score extraction of `analyze_text` on the list of lines of
the analysis text: take the last line containing a marker, split it on
`:` and keep the text after the last colon, strip it, and parse its
first whitespace-delimited token as a float.  `none` models the
`except` branch (no marker line, no token, or a non-numeric token). -/
def primaryScoreOfLines (ls : List String) : Option ℚ := do
  let line ← (ls.filter lineHasMarker).getLast?
  let tok ← (pySplitWs ((line.splitOn ":").getLastD "").trim).head?
  pyFloat tok

/-- Spec-worded primary parse, stated for comparison with
`primaryScoreOfLines`: on the last marker-bearing line, take the first
whitespace-delimited token after the *marker's* colon (every marker ends
in a colon, so this is the text following the marker's first
case-insensitive occurrence) and parse it as a float.  The code instead
takes the token after the line's *last* colon. -/
def primaryScoreSpecOfLines (ls : List String) : Option ℚ := do
  let line ← (ls.filter lineHasMarker).getLast?
  let low := line.toLower.toList
  let m ← scoreMarkers.find? fun m => pyContains line.toLower m
  let i ← findSub m.toList low
  let afterMarker := String.mk (line.toList.drop (i + m.toList.length))
  let tok ← (pySplitWs afterMarker.trim).head?
  pyFloat tok

/-- Keyword set counted positively by `_extract_sentiment_score`. -/
def positive_words : List String := ["bullish", "positive", "optimistic", "growth", "gain"]

/-- Keyword set counted negatively by `_extract_sentiment_score`. -/
def negative_words : List String := ["bearish", "negative", "pessimistic", "decline", "loss"]

/-- Python `hay.count(word)` on strings. -/
def pyCount (hay word : String) : Nat := countOccs word.toList hay.toList

/-- Total occurrences of the positive keywords in the lowercased
analysis text, as in `_extract_sentiment_score`. -/
def positiveCount (analysis : String) : Nat :=
  (positive_words.map fun w => pyCount analysis.toLower w).sum

/-- Total occurrences of the negative keywords in the lowercased
analysis text, as in `_extract_sentiment_score`. -/
def negativeCount (analysis : String) : Nat :=
  (negative_words.map fun w => pyCount analysis.toLower w).sum

/-- Keyword-count fallback `_extract_sentiment_score`: `0` when no
keyword occurs, otherwise `(positive - negative) / (positive + negative)`. -/
def extract_sentiment_score (analysis : String) : ℚ :=
  let total := positiveCount analysis + negativeCount analysis
  if total = 0 then 0
  else ((positiveCount analysis : ℚ) - (negativeCount analysis : ℚ)) / (total : ℚ)

/-- Score produced by `analyze_text` for a given analysis text: the
primary parse when it succeeds, else the keyword fallback. -/
def analyzeTextScore (analysis : String) : ℚ :=
  (primaryScoreOfLines (pyLines analysis)).getD (extract_sentiment_score analysis)

/-! ### Aggregation (`SentimentAnalyzer.analyze_crypto_ticker`) -/

/-- Row of the data frame handed to `analyze_crypto_ticker` by
`aggregate_data`: a tweet text and its engagement count. -/
structure TweetRow where
  text : String
  engagement : Nat
deriving DecidableEq

/-- Entry of the `analyses` list built by the per-tweet loop of
`analyze_crypto_ticker`: the parsed sentiment score together with the
tweet's engagement. -/
structure ScoredPost where
  sentiment_score : ℚ
  engagement : Nat
deriving DecidableEq

/-- Sum of the `engagement` column, `df['engagement'].sum()`. -/
def engagementSum (ps : List ScoredPost) : Nat :=
  (ps.map (·.engagement)).sum

/-- Maximum of the `engagement` column, `df['engagement'].max()`
(only consulted on non-empty data). -/
def engagementMax (ps : List ScoredPost) : Nat :=
  (ps.map (·.engagement)).foldr max 0

/-- Weight column of `analyze_crypto_ticker`: when the engagement sum is
positive, `df['engagement'] / df['engagement'].max()`; otherwise the
constant `1.0`. -/
def weightOf (ps : List ScoredPost) (e : Nat) : ℚ :=
  if 0 < engagementSum ps then (e : ℚ) / (engagementMax ps : ℚ) else 1

/-- Weighted sentiment of `analyze_crypto_ticker`:
`(df['sentiment_score'] * df['weight']).sum() / df['weight'].sum()`. -/
def weightedSentiment (ps : List ScoredPost) : ℚ :=
  (ps.map fun p => p.sentiment_score * weightOf ps p.engagement).sum /
    (ps.map fun p => weightOf ps p.engagement).sum

/-- Column mean, `Series.mean()` (only consulted on non-empty data). -/
def sentimentMean (xs : List ℚ) : ℚ := xs.sum / (xs.length : ℚ)

/-- Column minimum, `Series.min()` (only consulted on non-empty data). -/
def columnMin : List ℚ → ℚ
  | [] => 0
  | [x] => x
  | x :: y :: xs => min x (columnMin (y :: xs))

/-- Column maximum, `Series.max()` (only consulted on non-empty data). -/
def columnMax : List ℚ → ℚ
  | [] => 0
  | [x] => x
  | x :: y :: xs => max x (columnMax (y :: xs))

/-- Sample standard deviation of pandas `Series.std()` (divisor
`n - 1`), modelled through its square — the sign information lost by the
square root is irrelevant to every statement below.  `none` models the
NaN that pandas returns when the series has fewer than two entries. -/
def sentimentStdSq (xs : List ℚ) : Option ℚ :=
  if xs.length ≤ 1 then none
  else some ((xs.map fun x => (x - sentimentMean xs) ^ 2).sum / ((xs.length : ℚ) - 1))

/-- Stats block assembled by `analyze_crypto_ticker`. -/
structure AggStats where
  tweet_count : Nat
  sentiment_mean : ℚ
  sentiment_std : Option ℚ
  sentiment_min : ℚ
  sentiment_max : ℚ
  avg_engagement : ℚ
deriving DecidableEq

/-- Numeric part of the result record of `analyze_crypto_ticker`. -/
structure TickerReport where
  weighted_sentiment : ℚ
  stats : AggStats
deriving DecidableEq

/-- Stats computation of `analyze_crypto_ticker` over the surviving
analyses. -/
def mkStats (ps : List ScoredPost) : AggStats :=
  let scores := ps.map (·.sentiment_score)
  { tweet_count := ps.length
    sentiment_mean := sentimentMean scores
    sentiment_std := sentimentStdSq scores
    sentiment_min := columnMin scores
    sentiment_max := columnMax scores
    avg_engagement := (ps.map fun p => (p.engagement : ℚ)).sum / (ps.length : ℚ) }

/-- Analyses that survive the per-tweet loop of
`analyze_crypto_ticker`: each tweet is scored by `analyze_text` (an
external API round trip, passed here as an oracle; `none` models a
raised exception, which the loop catches and skips). -/
def surviving (data : List TweetRow) (oracle : String → Option ℚ) : List ScoredPost :=
  data.filterMap fun row => (oracle row.text).map fun s => ⟨s, row.engagement⟩

/-- Control flow of `analyze_crypto_ticker` on collected data: the error
dictionaries returned when the collected frame is empty or when every
per-tweet analysis fails become `Except.error`; otherwise the weighted
sentiment and the stats block are assembled from the surviving
analyses. -/
def analyze_crypto_ticker (data : List TweetRow) (oracle : String → Option ℚ) :
    Except String TickerReport :=
  if data.isEmpty then .error "No tweets found"
  else
    let analyses := surviving data oracle
    if analyses.isEmpty then .error "Unable to analyze tweets"
    else .ok { weighted_sentiment := weightedSentiment analyses
               stats := mkStats analyses }

/-! ### Collector scrape calls (`DataCollector.get_twitter_data`) -/

/-- Scrape interactions available to `get_twitter_data`: a direct call
to `TwitterScraper.search_tweets`, or a call submitted through the
scraper's `RequestQueue`. -/
inductive ScrapeCall where
  | direct (query : String) (maxResults : Nat)
  | queued (query : String) (maxResults : Nat)
deriving DecidableEq

/-- Search query built by `get_twitter_data`:
`f"{ticker} -is:retweet lang:en"`. -/
def searchQuery (ticker : String) : String := ticker ++ " -is:retweet lang:en"

/-- Scrape calls issued by one `get_twitter_data` run, in order.  The
body performs exactly one scrape interaction,
`search_tweets(search_query, max_results=max_tweets, ...)`, invoked
directly on the scraper; the scraper's `request_queue` field is never
consulted anywhere in the module. -/
def getTwitterDataScrapeCalls (ticker : String) (max_tweets : Nat) : List ScrapeCall :=
  [ScrapeCall.direct (searchQuery ticker) max_tweets]

/-! ### The rate-limited queue (`RequestQueue`) -/

/-- Task submitted to `RequestQueue`: an identifier, whether its
`await request()` call succeeds, and the tasks that are re-entrantly
submitted to the same queue while it runs (the only suspension point at
which the cooperative scheduler can interleave another `add`). -/
inductive QTask where
  | node (id : Nat) (ok : Bool) (spawns : List QTask)

/-- Identifier of a task. -/
def QTask.id : QTask → Nat
  | node i _ _ => i

/-- Whether the task's `request()` call succeeds. -/
def QTask.ok : QTask → Bool
  | node _ b _ => b

/-- Tasks re-entrantly submitted while this task runs. -/
def QTask.spawns : QTask → List QTask
  | node _ _ s => s

mutual

/-- Number of tasks in a task tree. -/
def QTask.size : QTask → Nat
  | .node _ _ spawns => 1 + sizeQList spawns

/-- Number of tasks in a forest of task trees. -/
def sizeQList : List QTask → Nat
  | [] => 0
  | t :: ts => QTask.size t + sizeQList ts

end

/-- Observable events of the queue worker: a task executes, the worker
sleeps an exponential-backoff delay, the worker sleeps the random
inter-item delay. -/
inductive QEvent where
  | exec (id : Nat) (ok : Bool)
  | backoff (seconds : Nat)
  | interDelay
deriving DecidableEq

/-- One full drain of `RequestQueue._process_queue`, as the list of
observable events.  Mirrors the loop body: the head task runs (the
tasks it re-entrantly submits are appended to the queue while it runs);
on failure the worker sleeps `2 ** len(self.queue)` seconds — the
failed head is popped only after the backoff, so it is still counted in
`len(self.queue)` — then the head is popped and the random inter-item
delay runs. -/
def drainEvents : List QTask → List QEvent
  | [] => []
  | t :: rest =>
    QEvent.exec t.id t.ok ::
      ((if t.ok then [] else
          [QEvent.backoff (2 ^ (t :: (rest ++ t.spawns)).length)]) ++
        QEvent.interDelay :: drainEvents (rest ++ t.spawns))
termination_by q => sizeQList q
decreasing_by
  have happ : ∀ (a b : List QTask), sizeQList (a ++ b) = sizeQList a + sizeQList b := by
    intro a b
    induction a with
    | nil => simp [sizeQList]
    | cons x xs ih => simp [sizeQList, ih, Nat.add_assoc]
  cases t with
  | node i ok spawns =>
    simp [happ, sizeQList, QTask.size, QTask.spawns]
    omega

/-- State of a `RequestQueue` object: its `queue` list and its
`processing` flag. -/
structure QueueState where
  queue : List QTask
  processing : Bool

/-- Body of `_process_queue`: return immediately when already
processing or when the queue is empty; otherwise set the processing
flag, drain the queue to exhaustion, and clear the flag. -/
def processQueue (s : QueueState) : QueueState × List QEvent :=
  if s.processing ∨ s.queue.isEmpty then (s, [])
  else ({ queue := [], processing := false }, drainEvents s.queue)

/-- Body of `_add_to_queue` (the implementation of `add`): append the
request to the queue, then call `_process_queue`. -/
def submitTask (s : QueueState) (t : QTask) : QueueState × List QEvent :=
  processQueue { s with queue := s.queue ++ [t] }

/-- Identifiers of the executed tasks of one drain, in execution
order. -/
def execIds (q : List QTask) : List Nat :=
  (drainEvents q).filterMap fun e =>
    match e with
    | QEvent.exec i _ => some i
    | _ => none

/-- Identifiers of the tasks re-entrantly submitted during one drain, in
submission order: each running task's spawns are appended at the moment
that task runs. -/
def spawnLog : List QTask → List Nat
  | [] => []
  | t :: rest => t.spawns.map QTask.id ++ spawnLog (rest ++ t.spawns)
termination_by q => sizeQList q
decreasing_by
  have happ : ∀ (a b : List QTask), sizeQList (a ++ b) = sizeQList a + sizeQList b := by
    intro a b
    induction a with
    | nil => simp [sizeQList]
    | cons x xs ih => simp [sizeQList, ih, Nat.add_assoc]
  cases t with
  | node i ok spawns =>
    simp [happ, sizeQList, QTask.size, QTask.spawns]
    omega

/-- Chronological submission order of the tasks handled by one drain of
queue `q`: the tasks already in the queue, in order, followed by the
re-entrant submissions as they occur.  Stated from the spec's notion of
submission order, for comparison with the execution order. -/
def submissionLog (q : List QTask) : List Nat :=
  q.map QTask.id ++ spawnLog q

/-! ### Helper lemmas -/

theorem sizeQList_append (a b : List QTask) :
    sizeQList (a ++ b) = sizeQList a + sizeQList b := by
  induction a with
  | nil => simp [sizeQList]
  | cons x xs ih => simp [sizeQList, ih, Nat.add_assoc]

theorem sum_map_one (l : List ScoredPost) :
    (l.map fun _ => (1 : ℚ)).sum = (l.length : ℚ) := by
  induction l with
  | nil => simp
  | cons x xs ih =>
    rw [List.map_cons, List.sum_cons, ih, List.length_cons]
    push_cast
    ring

theorem sum_map_div_nat (l : List Nat) (c : ℚ) :
    (l.map fun e : Nat => (e : ℚ) / c).sum = (l.sum : ℚ) / c := by
  induction l with
  | nil => simp
  | cons a t ih =>
    rw [List.map_cons, List.sum_cons, ih, List.sum_cons]
    push_cast
    ring

theorem sum_eq_zero_of_foldr_max_eq_zero (l : List Nat) (h : l.foldr max 0 = 0) :
    l.sum = 0 := by
  induction l with
  | nil => rfl
  | cons a t ih =>
    simp only [List.foldr_cons, Nat.max_eq_zero_iff] at h
    simp [h.1, ih h.2]

theorem engagementMax_pos (ps : List ScoredPost) (h : 0 < engagementSum ps) :
    0 < engagementMax ps := by
  rcases Nat.eq_zero_or_pos (engagementMax ps) with h0 | hpos
  · unfold engagementMax at h0
    have := sum_eq_zero_of_foldr_max_eq_zero (ps.map (·.engagement)) h0
    unfold engagementSum at h
    omega
  · exact hpos

theorem columnMin_le (xs : List ℚ) (x : ℚ) (hx : x ∈ xs) : columnMin xs ≤ x := by
  induction xs with
  | nil => cases hx
  | cons a t ih =>
    cases t with
    | nil =>
      have : x = a := List.mem_singleton.mp hx
      subst this
      simp [columnMin]
    | cons b u =>
      rcases List.mem_cons.mp hx with h | h
      · subst h
        exact min_le_left _ _
      · exact le_trans (min_le_right _ _) (ih h)

theorem le_columnMax (xs : List ℚ) (x : ℚ) (hx : x ∈ xs) : x ≤ columnMax xs := by
  induction xs with
  | nil => cases hx
  | cons a t ih =>
    cases t with
    | nil =>
      have : x = a := List.mem_singleton.mp hx
      subst this
      simp [columnMax]
    | cons b u =>
      rcases List.mem_cons.mp hx with h | h
      · subst h
        exact le_max_left _ _
      · exact le_trans (ih h) (le_max_right _ _)

theorem execIds_drain (q : List QTask) : execIds q = submissionLog q := by
  induction q using drainEvents.induct with
  | case1 => simp [execIds, drainEvents, submissionLog, spawnLog]
  | case2 t rest ih =>
    cases ht : t.ok with
    | true =>
      simp only [execIds, drainEvents, ht, if_pos, List.filterMap_cons,
        List.nil_append, List.filterMap_append] at *
      simp only [submissionLog, spawnLog, List.map_cons, List.map_append,
        List.cons_append, List.append_assoc] at *
      simp [ih]
    | false =>
      simp only [execIds, drainEvents, ht, if_neg, List.filterMap_cons,
        List.filterMap_append] at *
      simp only [submissionLog, spawnLog, List.map_cons, List.map_append,
        List.cons_append, List.append_assoc] at *
      simp [ih]

/-! ### Claim theorems -/

/-- C1: for every non-empty list of scored posts, when the engagement
sum is positive each post's weight is its engagement divided by the
maximum engagement and the weighted sentiment is the weight-normalised
sum of scores, and when the engagement sum is zero every weight is `1.0`
and the weighted sentiment equals the unweighted arithmetic mean. -/
theorem weighted_sentiment_formula (ps : List ScoredPost) (_hps : ps ≠ []) :
    (0 < engagementSum ps →
      weightedSentiment ps =
        (ps.map fun p =>
          p.sentiment_score * ((p.engagement : ℚ) / (engagementMax ps : ℚ))).sum /
          (ps.map fun p => (p.engagement : ℚ) / (engagementMax ps : ℚ)).sum) ∧
    (engagementSum ps = 0 →
      weightedSentiment ps = (ps.map (·.sentiment_score)).sum / (ps.length : ℚ)) := by
  constructor
  · intro hpos
    simp only [weightedSentiment, weightOf, if_pos hpos]
  · intro hz
    simp only [weightedSentiment, weightOf, hz, lt_self_iff_false, if_false, mul_one]
    rw [sum_map_one]

/-- Witness for C1 at the concrete posts `[(1, 2), (0, 6)]`. -/
theorem weighted_sentiment_formula_witness :
    weightedSentiment [⟨(1 : ℚ), 2⟩, ⟨0, 6⟩] = 1 / 4 := by
  have h := (weighted_sentiment_formula [⟨1, 2⟩, ⟨0, 6⟩] (by simp)).1
    (by with_unfolding_all decide)
  rw [h]
  with_unfolding_all decide

/-- C2 counterexample: the scrape request of `get_twitter_data` is not
issued through the rate-limited queue — at the concrete input the call
list consists of one direct call to the scraper and contains no queued
call. -/
theorem scrape_call_bypasses_queue_cex :
    getTwitterDataScrapeCalls "$BTC" 50 =
      [ScrapeCall.direct "$BTC -is:retweet lang:en" 50] ∧
    ScrapeCall.queued "$BTC -is:retweet lang:en" 50 ∉ getTwitterDataScrapeCalls "$BTC" 50 := by
  constructor
  · rfl
  · with_unfolding_all decide

/-- C2 amended: each `get_twitter_data` run issues exactly one scrape
call, made directly on the scraper (never through the `RequestQueue`),
and it carries `max_results` equal to the caller-supplied
`max_tweets`. -/
theorem scrape_call_direct_with_max_items (ticker : String) (max_tweets : Nat) :
    (getTwitterDataScrapeCalls ticker max_tweets).length = 1 ∧
    ScrapeCall.direct (searchQuery ticker) max_tweets ∈
      getTwitterDataScrapeCalls ticker max_tweets ∧
    ∀ q m, ScrapeCall.queued q m ∉ getTwitterDataScrapeCalls ticker max_tweets := by
  refine ⟨rfl, List.mem_singleton_self _, ?_⟩
  intro q m hmem
  simp [getTwitterDataScrapeCalls] at hmem

/-- C3: the queue executes tasks one at a time in exactly their
submission order (also for tasks submitted re-entrantly while the queue
is draining), and a `submit` arriving while the `processing` flag is set
only appends the task to the queue — `_process_queue` returns at once
and no second drain starts (no events are emitted). -/
theorem queue_fifo_and_no_second_drain :
    (∀ q : List QTask, execIds q = submissionLog q) ∧
    ∀ (s : QueueState) (t : QTask), s.processing = true →
      submitTask s t = ({ queue := s.queue ++ [t], processing := true }, []) := by
  constructor
  · exact execIds_drain
  · intro s t hp
    simp [submitTask, processQueue, hp]

/-- Witness for C3: a submit into an actively draining queue only
appends. -/
theorem queue_fifo_and_no_second_drain_witness :
    submitTask ⟨[], true⟩ (QTask.node 7 true []) =
      (⟨[QTask.node 7 true []], true⟩, []) :=
  queue_fifo_and_no_second_drain.2 ⟨[], true⟩ (QTask.node 7 true []) rfl

/-- C4 counterexample: a single failing task with nothing else waiting
makes the worker sleep `2 ^ 1 = 2` seconds, not the `2 ^ 0 = 1` seconds
the claim predicts for zero items still waiting excluding the failed
task. -/
theorem backoff_excludes_failed_task_cex :
    drainEvents [QTask.node 0 false []] =
      [QEvent.exec 0 false, QEvent.backoff 2, QEvent.interDelay] ∧
    QEvent.backoff (2 ^ (0 : Nat)) ∉ drainEvents [QTask.node 0 false []] := by
  constructor
  · with_unfolding_all decide
  · with_unfolding_all decide

/-- C4 amended: when a task fails with `n` items still waiting behind it
the worker sleeps `2 ^ (n + 1)` seconds before continuing — the failed
task is popped only after the backoff, so `len(self.queue)` still counts
it — and no backoff is slept after a successful task. -/
theorem backoff_formula (t : QTask) (rest : List QTask) :
    drainEvents (t :: rest) =
      QEvent.exec t.id t.ok ::
        ((if t.ok then [] else
            [QEvent.backoff (2 ^ ((rest ++ t.spawns).length + 1))]) ++
          QEvent.interDelay :: drainEvents (rest ++ t.spawns)) := by
  simp [drainEvents]

/-- C5 counterexample: aggregating exactly one scored post reports a NaN
standard deviation (modelled `none`), not `0`. -/
theorem single_post_std_cex :
    (mkStats [⟨(1 : ℚ) / 2, 5⟩]).sentiment_std = none ∧
    (mkStats [⟨(1 : ℚ) / 2, 5⟩]).sentiment_std ≠ some 0 := by
  constructor
  · rfl
  · intro h
    simp [mkStats, sentimentStdSq] at h

/-- C5 amended: for an aggregation input of exactly one analysable
tweet, the reported standard deviation is the NaN of the sample standard
deviation with divisor `n - 1` at `n == 1` (modelled `none`); it is not
reported as `0`. -/
theorem single_post_std_nan (row : TweetRow) (oracle : String → Option ℚ) (q : ℚ)
    (h : oracle row.text = some q) :
    (analyze_crypto_ticker [row] oracle).map (fun r => r.stats.sentiment_std) =
      Except.ok none := by
  simp [analyze_crypto_ticker, surviving, h, mkStats, sentimentStdSq, Except.map]

/-- Witness for C5 at a concrete single tweet. -/
theorem single_post_std_nan_witness :
    (analyze_crypto_ticker [⟨"btc", 5⟩] fun _ => some (1 / 2)).map
        (fun r => r.stats.sentiment_std) = Except.ok none :=
  single_post_std_nan ⟨"btc", 5⟩ (fun _ => some (1 / 2)) (1 / 2) rfl

/-- C6: `analyze_crypto_ticker` returns its error result exactly when
the collected data is empty or no tweet survives analysis, and every
successful report has a positive tweet count. -/
theorem no_data_error_iff (data : List TweetRow) (oracle : String → Option ℚ) :
    ((∃ msg, analyze_crypto_ticker data oracle = Except.error msg) ↔
      data = [] ∨ surviving data oracle = []) ∧
    ∀ rep, analyze_crypto_ticker data oracle = Except.ok rep →
      0 < rep.stats.tweet_count := by
  cases data with
  | nil =>
    constructor
    · simp [analyze_crypto_ticker]
    · intro rep hrep
      simp [analyze_crypto_ticker] at hrep
  | cons d ds =>
    cases hs : surviving (d :: ds) oracle with
    | nil =>
      constructor
      · simp [analyze_crypto_ticker, hs]
      · intro rep hrep
        simp [analyze_crypto_ticker, hs] at hrep
    | cons p psr =>
      constructor
      · constructor
        · rintro ⟨msg, hmsg⟩
          simp [analyze_crypto_ticker, hs] at hmsg
        · rintro (h | h)
          · cases h
          · cases h
      · intro rep hrep
        simp only [analyze_crypto_ticker, hs, List.isEmpty_cons, Bool.false_eq_true,
          if_false, Except.ok.injEq] at hrep
        subst hrep
        simp [mkStats]

/-- Witness for C6: on empty collected data the run fails. -/
theorem no_data_error_iff_witness :
    ∃ msg, analyze_crypto_ticker ([] : List TweetRow) (fun _ => none) =
      Except.error msg :=
  ((no_data_error_iff [] fun _ => none).1).mpr (Or.inl rfl)

/-- C7 counterexample: on the line `"Score: note: 0.9"` the code parses
the token after the line's last colon and extracts `0.9`, while the
claim's description (first token after the marker's colon) finds the
non-numeric token `note:` and fails the primary parse. -/
theorem primary_parse_marker_colon_cex :
    primaryScoreOfLines ["Score: note: 0.9"] = some (9 / 10) ∧
    primaryScoreSpecOfLines ["Score: note: 0.9"] = none := by
  constructor
  · with_unfolding_all decide
  · with_unfolding_all decide

/-- C7 amended: the primary parse takes the last marker-bearing line and
parses the first whitespace-delimited token after that line's last
colon; in particular any analysis whose lines end with
`"Sentiment Score: 0.42"` extracts exactly `0.42`. -/
theorem primary_parse_score_line (ls : List String) :
    primaryScoreOfLines (ls ++ ["Sentiment Score: 0.42"]) = some (21 / 50) := by
  have hm : lineHasMarker "Sentiment Score: 0.42" = true := by
    with_unfolding_all decide
  have hfilter : (ls ++ ["Sentiment Score: 0.42"]).filter lineHasMarker
      = ls.filter lineHasMarker ++ ["Sentiment Score: 0.42"] := by
    rw [List.filter_append]
    congr 1
    simp [List.filter_cons, hm]
  unfold primaryScoreOfLines
  rw [hfilter, List.getLast?_concat]
  with_unfolding_all decide

/-- C9: with positive total engagement the weighted sentiment is a
convex combination of the scores — all weights are non-negative, their
sum is strictly positive — and it lies between the minimum and the
maximum score. -/
theorem weighted_sentiment_convex (ps : List ScoredPost) (_hne : ps ≠ [])
    (hpos : 0 < engagementSum ps) :
    (∀ p ∈ ps, 0 ≤ weightOf ps p.engagement) ∧
    0 < (ps.map fun p => weightOf ps p.engagement).sum ∧
    columnMin (ps.map (·.sentiment_score)) ≤ weightedSentiment ps ∧
    weightedSentiment ps ≤ columnMax (ps.map (·.sentiment_score)) := by
  have hMax : 0 < engagementMax ps := engagementMax_pos ps hpos
  have hMaxQ : (0 : ℚ) < (engagementMax ps : ℚ) := by exact_mod_cast hMax
  have hw : ∀ p ∈ ps, 0 ≤ weightOf ps p.engagement := by
    intro p _
    simp only [weightOf, if_pos hpos]
    positivity
  have hmap : (ps.map fun p => weightOf ps p.engagement)
      = (ps.map (·.engagement)).map fun e : Nat => (e : ℚ) / (engagementMax ps : ℚ) := by
    rw [List.map_map]
    simp only [weightOf, if_pos hpos]
    rfl
  have hWsum : (ps.map fun p => weightOf ps p.engagement).sum
      = (engagementSum ps : ℚ) / (engagementMax ps : ℚ) := by
    rw [hmap, sum_map_div_nat]
    rfl
  have hWpos : 0 < (ps.map fun p => weightOf ps p.engagement).sum := by
    rw [hWsum]
    apply div_pos _ hMaxQ
    exact_mod_cast hpos
  refine ⟨hw, hWpos, ?_, ?_⟩
  · unfold weightedSentiment
    rw [le_div_iff₀ hWpos]
    calc columnMin (ps.map (·.sentiment_score)) *
          (ps.map fun p => weightOf ps p.engagement).sum
        = (ps.map fun p =>
            columnMin (ps.map (·.sentiment_score)) * weightOf ps p.engagement).sum := by
          rw [List.sum_map_mul_left]
      _ ≤ (ps.map fun p => p.sentiment_score * weightOf ps p.engagement).sum := by
          apply List.sum_le_sum
          intro p hp
          exact mul_le_mul_of_nonneg_right
            (columnMin_le _ _ (List.mem_map_of_mem _ hp)) (hw p hp)
  · unfold weightedSentiment
    rw [div_le_iff₀ hWpos]
    calc (ps.map fun p => p.sentiment_score * weightOf ps p.engagement).sum
        ≤ (ps.map fun p =>
            columnMax (ps.map (·.sentiment_score)) * weightOf ps p.engagement).sum := by
          apply List.sum_le_sum
          intro p hp
          exact mul_le_mul_of_nonneg_right
            (le_columnMax _ _ (List.mem_map_of_mem _ hp)) (hw p hp)
      _ = columnMax (ps.map (·.sentiment_score)) *
          (ps.map fun p => weightOf ps p.engagement).sum := by
          rw [List.sum_map_mul_left]

/-- Witness for C9 at the concrete posts `[(1, 2), (0, 6)]`. -/
theorem weighted_sentiment_convex_witness :
    columnMin (([⟨(1 : ℚ), 2⟩, ⟨0, 6⟩] : List ScoredPost).map (·.sentiment_score)) ≤
        weightedSentiment [⟨(1 : ℚ), 2⟩, ⟨0, 6⟩] ∧
    weightedSentiment [⟨(1 : ℚ), 2⟩, ⟨0, 6⟩] ≤
      columnMax (([⟨(1 : ℚ), 2⟩, ⟨0, 6⟩] : List ScoredPost).map (·.sentiment_score)) := by
  have h := weighted_sentiment_convex [⟨1, 2⟩, ⟨0, 6⟩] (by simp)
    (by with_unfolding_all decide)
  exact ⟨h.2.2.1, h.2.2.2⟩

/-- C10: the keyword fallback returns exactly
`(positive - negative) / (positive + negative)` (and `0` when no keyword
occurs), a value always within `[-1, 1]`; the combined extractor only
deviates from the fallback when the primary parse succeeds. -/
theorem fallback_score_range (analysis : String) :
    extract_sentiment_score analysis =
      (if positiveCount analysis + negativeCount analysis = 0 then 0
       else ((positiveCount analysis : ℚ) - (negativeCount analysis : ℚ)) /
         ((positiveCount analysis + negativeCount analysis : Nat) : ℚ)) ∧
    -1 ≤ extract_sentiment_score analysis ∧
    extract_sentiment_score analysis ≤ 1 ∧
    analyzeTextScore analysis =
      (primaryScoreOfLines (pyLines analysis)).getD (extract_sentiment_score analysis) := by
  have hqeq : extract_sentiment_score analysis =
      (if positiveCount analysis + negativeCount analysis = 0 then 0
       else ((positiveCount analysis : ℚ) - (negativeCount analysis : ℚ)) /
         ((positiveCount analysis + negativeCount analysis : Nat) : ℚ)) := rfl
  refine ⟨hqeq, ?_, ?_, rfl⟩
  · rw [hqeq]
    by_cases h : positiveCount analysis + negativeCount analysis = 0
    · rw [if_pos h]
      norm_num
    · rw [if_neg h]
      have htot : (0 : ℚ) <
          ((positiveCount analysis + negativeCount analysis : Nat) : ℚ) := by
        exact_mod_cast Nat.pos_of_ne_zero h
      rw [le_div_iff₀ htot]
      push_cast
      linarith [Nat.cast_nonneg (α := ℚ) (positiveCount analysis),
        Nat.cast_nonneg (α := ℚ) (negativeCount analysis)]
  · rw [hqeq]
    by_cases h : positiveCount analysis + negativeCount analysis = 0
    · rw [if_pos h]
      norm_num
    · rw [if_neg h]
      have htot : (0 : ℚ) <
          ((positiveCount analysis + negativeCount analysis : Nat) : ℚ) := by
        exact_mod_cast Nat.pos_of_ne_zero h
      rw [div_le_iff₀ htot]
      push_cast
      linarith [Nat.cast_nonneg (α := ℚ) (positiveCount analysis),
        Nat.cast_nonneg (α := ℚ) (negativeCount analysis)]

end CryptoSentiment
